import Mathlib

/-!
Verification development for the material-resolution subsystem of meepgeom.cpp:
symmetric-tensor algebra, the density-grid evaluator, the Kottke subpixel
averaging step, the fallback quadrature averager, the gradient-path guards and
the fragment cost model.  Floating-point doubles are embedded as real numbers;
external geometry/interpolation queries (libctl tree search, shape overlap,
trilinear interpolation, adaptive cubature rules) enter as explicit parameters.
-/

noncomputable section

/-- Real 3-component vector (`vector3` of the source). -/
structure vector3 where
  x : ℝ
  y : ℝ
  z : ℝ

/-- Real symmetric 3×3 matrix stored as six components (`symm_matrix`,
meepgeom.cpp). -/
@[ext]
structure symm_matrix where
  m00 : ℝ
  m01 : ℝ
  m02 : ℝ
  m11 : ℝ
  m12 : ℝ
  m22 : ℝ

/-- Full symmetric entry function of a `symm_matrix` (the array `A[3][3]`
built at the top of `sym_matrix_rotate`, meepgeom.cpp:152-160). -/
def symm_matrix.entry (A : symm_matrix) : Fin 3 → Fin 3 → ℝ :=
  ![![A.m00, A.m01, A.m02], ![A.m01, A.m11, A.m12], ![A.m02, A.m12, A.m22]]

/-- Rotation of a symmetric matrix: `RAR = transpose(R) * A * R`
(`sym_matrix_rotate`, meepgeom.cpp:152-173).  `AR` is the first loop,
the outer product the second loop; the six independent components of the
result are read off exactly as in the source. -/
def sym_matrix_rotate (A : symm_matrix) (R : Fin 3 → Fin 3 → ℝ) : symm_matrix :=
  let Am := A.entry
  let AR : Fin 3 → Fin 3 → ℝ := fun i j => Am i 0 * R 0 j + Am i 1 * R 1 j + Am i 2 * R 2 j
  let A2 : Fin 3 → Fin 3 → ℝ := fun i j => R 0 i * AR 0 j + R 1 i * AR 1 j + R 2 i * AR 2 j
  ⟨A2 0 0, A2 0 1, A2 0 2, A2 1 1, A2 1 2, A2 2 2⟩

/-- Determinant expression computed inside `sym_matrix_invert`
(meepgeom.cpp:191-192), kept verbatim. -/
def sym_matrix_det (V : symm_matrix) : ℝ :=
  V.m00 * V.m11 * V.m22 - V.m02 * V.m11 * V.m02 + 2.0 * V.m01 * V.m12 * V.m02 -
    V.m01 * V.m01 * V.m22 - V.m12 * V.m12 * V.m00

/-- Inverse of a real-symmetric matrix (`sym_matrix_invert`,
meepgeom.cpp:176-206).  `none` stands for the fatal
`meep::abort("singular 3x3 matrix")`; the all-zero off-diagonal fast path
returns the elementwise reciprocal of the diagonal with no determinant
check, `1 / 0` standing for the IEEE infinity a C double would produce. -/
def sym_matrix_invert (V : symm_matrix) : Option symm_matrix :=
  if V.m01 = 0 ∧ V.m02 = 0 ∧ V.m12 = 0 then
    some ⟨1 / V.m00, 0, 0, 1 / V.m11, 0, 1 / V.m22⟩
  else if sym_matrix_det V = 0 then none
  else
    let detinv := 1 / sym_matrix_det V
    some ⟨detinv * (V.m11 * V.m22 - V.m12 * V.m12),
          detinv * (V.m12 * V.m02 - V.m01 * V.m22),
          detinv * (V.m01 * V.m12 - V.m11 * V.m02),
          detinv * (V.m00 * V.m22 - V.m02 * V.m02),
          detinv * (V.m01 * V.m02 - V.m00 * V.m12),
          detinv * (V.m11 * V.m00 - V.m01 * V.m01)⟩

/-- Smooth threshold projection (`tanh_projection`, meepgeom.cpp:502-508):
identity when `beta = 0`, exactly `0.5` on the `u = eta` branch (the
source comment: avoid NaN when beta is Inf), otherwise the shifted and
normalized hyperbolic-tangent sigmoid. -/
def tanh_projection (u beta eta : ℝ) : ℝ :=
  if beta = 0 then u
  else if u = eta then 0.5
  else (Real.tanh (beta * eta) + Real.tanh (beta * (u - eta))) /
    (Real.tanh (beta * eta) + Real.tanh (beta * (1 - eta)))

/-- Aggregation policy of overlapping density grids
(`material_data::material_grid_kinds`). -/
inductive grid_kind
  | U_MIN
  | U_PROD
  | U_MEAN
  | U_DEFAULT
deriving DecidableEq

/-- State of the traversal loop of `matgrid_val` (meepgeom.cpp:510-539):
running minimum (seeded with `1.0`), running product, running sum and the
number of stacked grids visited, updated in traversal order. -/
def matgrid_fold (us : List ℝ) : ℝ × ℝ × ℝ × ℕ :=
  us.foldl (fun st u => (min st.1 u, st.2.1 * u, st.2.2.1 + u, st.2.2.2 + 1)) (1, 1, 0, 0)

/-- Aggregated density-grid value at a point (`matgrid_val`,
meepgeom.cpp:510-547).  `us` is the list of trilinearly interpolated
weights of the material-grid objects stacked at the point, frontmost
first (the values `material_grid_val` produces along the
`geom_tree_search_next` walk, with the default-material grid appended
when present); the selection between `umin`, `uprod`, `usum / count` and
`udefault` mirrors the final conditional of the source. -/
def matgrid_val (kind : grid_kind) (us : List ℝ) : ℝ :=
  match kind with
  | .U_DEFAULT => us.headD 0
  | .U_MIN => (matgrid_fold us).1
  | .U_PROD => (matgrid_fold us).2.1
  | .U_MEAN => (matgrid_fold us).2.2.1 / ((matgrid_fold us).2.2.2 : ℝ)

/-- Componentwise sum of two vectors (`gradient += ...`). -/
def vadd3 (a b : vector3) : vector3 :=
  ⟨a.x + b.x, a.y + b.y, a.z + b.z⟩

/-- Scalar multiple of a vector. -/
def vscale (s : ℝ) (a : vector3) : vector3 :=
  ⟨s * a.x, s * a.y, s * a.z⟩

/-- Sum of a list of vectors, accumulated left to right from zero. -/
def vsum (l : List vector3) : vector3 :=
  l.foldl vadd3 ⟨0, 0, 0⟩

/-- Euclidean norm, `meep::abs` of a vector. -/
def vabs (v : vector3) : ℝ :=
  Real.sqrt (v.x * v.x + v.y * v.y + v.z * v.z)

/-- Spatial gradient of the aggregated density-grid weight
(`matgrid_grad`, meepgeom.cpp:460-491).  The function aborts up front for
the `U_MIN` and `U_PROD` aggregation policies (`error`); otherwise it
accumulates the per-grid world-coordinate gradients `gs` of the stacked
grids at the point (frontmost first, `U_DEFAULT` stopping after the
first) and rescales by `1 / count` for `U_MEAN`. -/
def matgrid_grad (kind : grid_kind) (gs : List vector3) : Except String vector3 :=
  if kind = .U_MIN ∨ kind = .U_PROD then
    .error "matgrid_grad does not support overlapping grids with U_MIN or U_PROD"
  else
    let gradient := if kind = .U_DEFAULT then gs.headD ⟨0, 0, 0⟩ else vsum gs
    .ok (if kind = .U_MEAN then vscale (1 / (gs.length : ℝ)) gradient else gradient)

/-- Entry guard and scale adjustment of `material_grids_addgradient_point`
(meepgeom.cpp:2891-2926).  `at_grid_object` says the tree search found a
material-grid object at the point (`tp` non-null with a grid frontmost),
`default_is_grid` that the default material is a grid.  The success value
is the per-grid `scalegrad` handed to the accumulation loop
(`add_interpolate_weights`, which updates the caller's buffer and is
outside this model); `none` is the early `return` when no grid is
present, `error` the fatal abort for `U_MIN`/`U_PROD` overlap. -/
def material_grids_addgradient_point (kind : grid_kind) (at_grid_object : Bool)
    (default_is_grid : Bool) (scalegrad : ℝ) (stack_count : ℕ) : Except String (Option ℝ) :=
  if ¬at_grid_object ∧ ¬default_is_grid then .ok none
  else if at_grid_object ∧ kind = .U_MEAN then .ok (some (scalegrad / (stack_count : ℝ)))
  else if at_grid_object ∧ (kind = .U_MIN ∨ kind = .U_PROD) then
    .error "material_grids_addgradient_point does not support overlapping MATERIAL_GRIDs with U_MIN or U_PROD."
  else .ok (some scalegrad)

/-- Spatial dimensionality (`meep::ndim`). -/
inductive ndim
  | D1
  | D2
  | D3
  | Dcyl
deriving DecidableEq

/-- Material-grid fill fraction of a spherical sample region
(`get_material_grid_fill`, meepgeom.cpp:1051-1087).  `d` is the signed
distance from the region center to the projection threshold along the
normal, `r` the sample radius, `u` the interpolated weight at the center,
`eta` the threshold.  Returns `(fill, mg_averaging)`: when `|d| > |r|`
no averaging is needed and a garbage fill of `-1` is returned with the
flag false; otherwise the closed-form cap length/area/volume fraction,
flipped to `1 - rel_fill` when the center is on the solid side. -/
def get_material_grid_fill (dim : ndim) (d r u eta : ℝ) : ℝ × Bool :=
  if |d| > |r| then (-1.0, false)
  else
    let rel_fill : ℝ :=
      match dim with
      | .D1 => (r - d) / (2 * r)
      | .D2 => (1 / (r * r * Real.pi)) * (r * r * Real.arccos (d / r) - d * Real.sqrt (r * r - d * d))
      | .Dcyl => (1 / (r * r * Real.pi)) * (r * r * Real.arccos (d / r) - d * Real.sqrt (r * r - d * d))
      | .D3 => (((r - d) * (r - d)) / (4 * Real.pi * r * r * r)) * (2 * r + d)
    (if u ≤ eta then rel_fill else 1 - rel_fill, true)

/-- Closed-form cap fraction of a sphere of radius `r` cut at signed
distance `d`, stated from the spec: the 1-D cap length fraction
`(r-d)/(2r)`, the 2-D circular-segment area fraction and the 3-D
spherical-cap volume fraction.  Second definition for the refinement
comparison with `get_material_grid_fill`. -/
def matgrid_rel_fill (dim : ndim) (d r : ℝ) : ℝ :=
  match dim with
  | .D1 => (r - d) / (2 * r)
  | .D2 => (1 / (r * r * Real.pi)) * (r * r * Real.arccos (d / r) - d * Real.sqrt (r * r - d * d))
  | .Dcyl => (1 / (r * r * Real.pi)) * (r * r * Real.arccos (d / r) - d * Real.sqrt (r * r - d * d))
  | .D3 => (((r - d) * (r - d)) / (4 * Real.pi * r * r * r)) * (2 * r + d)

/-- Linear interpolation of the six epsilon tensor components between the
two endpoint media of a material grid (`cinterp_tensors` real parts,
meepgeom.cpp:548-561, in the component order `material_epsmu` reads them:
`epsilon_diag.{x,y,z}` into `m00/m11/m22`, `epsilon_offdiag.{x,y,z}.re`
into `m01/m02/m12`). -/
def cinterp_eps (e1 e2 : symm_matrix) (u : ℝ) : symm_matrix :=
  ⟨e1.m00 + u * (e2.m00 - e1.m00), e1.m01 + u * (e2.m01 - e1.m01),
   e1.m02 + u * (e2.m02 - e1.m02), e1.m11 + u * (e2.m11 - e1.m11),
   e1.m12 + u * (e2.m12 - e1.m12), e1.m22 + u * (e2.m22 - e1.m22)⟩

/-- Tensor and inverse tensor of a medium (`material_epsmu`,
meepgeom.cpp:789-849, non-metal case for the requested field type):
the stored 3×3 symmetric tensor paired with `sym_matrix_invert` of it
(`none` again standing for the singular-matrix abort). -/
def material_epsmu (e : symm_matrix) : symm_matrix × Option symm_matrix :=
  (e, sym_matrix_invert e)

/-- Medium produced by evaluating a material grid at a point
(`eval_material_pt` MATERIAL_GRID case, meepgeom.cpp:867-879, through
`epsilon_material_grid`): the endpoint epsilon tensors interpolated at
the projected weight. -/
def eval_material_grid_eps (beta eta : ℝ) (e1 e2 : symm_matrix) (u : ℝ) : symm_matrix :=
  cinterp_eps e1 e2 (tanh_projection u beta eta)

/-- Normal-frame rotation matrix built by `eff_chi1inv_matrix`
(meepgeom.cpp:1220-1243): column 0 is the normal, column 2 the normalized
cross of a near-orthogonal reference direction with the normal (the
`1e-2` branch test of the source), column 1 their cross product. -/
def rot_of_normal (n : vector3) : Fin 3 → Fin 3 → ℝ :=
  let c2 : vector3 := if |n.x| > 1 / 100 ∨ |n.y| > 1 / 100 then ⟨n.y, -n.x, 0⟩ else ⟨0, -n.z, n.y⟩
  let s : ℝ := 1 / Real.sqrt (c2.x * c2.x + c2.y * c2.y + c2.z * c2.z)
  let col2 : vector3 := ⟨c2.x * s, c2.y * s, c2.z * s⟩
  let col1 : vector3 := ⟨col2.y * n.z - col2.z * n.y, col2.z * n.x - col2.x * n.z,
    col2.x * n.y - col2.y * n.x⟩
  ![![n.x, col1.x, col2.x], ![n.y, col1.y, col2.y], ![n.z, col1.z, col2.z]]

/-- Transpose of a 3×3 array (the `SWAP` block of meepgeom.cpp:1281-1290). -/
def transpose3 (R : Fin 3 → Fin 3 → ℝ) : Fin 3 → Fin 3 → ℝ :=
  fun i j => R j i

/-- Fill-weighted combination of a tensor component expression over the
two rotated tensors (the `AVG`/`EXPR` macro pair of
meepgeom.cpp:1249-1270, reified as a higher-order function). -/
def kottke_avg (fill : ℝ) (e1 e2 : symm_matrix) (expr : symm_matrix → ℝ) : ℝ :=
  fill * expr e1 + (1 - fill) * expr e2

/-- Kottke anisotropic subpixel mixing (`eff_chi1inv_matrix`,
meepgeom.cpp:1213-1292): rotate both tensors into the normal-aligned
frame, average the six `delta` component expressions with the fill
weight, re-derive the mixed tensor `meps` from `delta`, and rotate back
with the transposed matrix. -/
def kottke_meps (eps1 eps2 : symm_matrix) (normal : vector3) (fill : ℝ) : symm_matrix :=
  let Rot := rot_of_normal normal
  let e1 := sym_matrix_rotate eps1 Rot
  let e2 := sym_matrix_rotate eps2 Rot
  let A := kottke_avg fill e1 e2
  let delta : symm_matrix :=
    ⟨A (fun e => -1 / e.m00),
     A (fun e => e.m01 / e.m00),
     A (fun e => e.m02 / e.m00),
     A (fun e => e.m11 - (e.m01 * e.m01) / e.m00),
     A (fun e => e.m12 - e.m02 * e.m01 / e.m00),
     A (fun e => e.m22 - (e.m02 * e.m02) / e.m00)⟩
  let meps : symm_matrix :=
    ⟨-1 / delta.m00,
     -delta.m01 / delta.m00,
     -delta.m02 / delta.m00,
     delta.m11 - (delta.m01 * delta.m01) / delta.m00,
     delta.m12 - delta.m02 * delta.m01 / delta.m00,
     delta.m22 - (delta.m02 * delta.m02) / delta.m00⟩
  sym_matrix_rotate meps (transpose3 Rot)

/-- Isotropic tensor with scalar permittivity `e`. -/
def iso (e : ℝ) : symm_matrix :=
  ⟨e, 0, 0, e, 0, e⟩

/-- Outcome of one `eff_chi1inv_matrix` query: the trivial single-material
return (`goto trivial` / `goto noavg`), or the Kottke-averaged tensor and
its inverse. -/
inductive eff_outcome
  | noavg (em : symm_matrix × Option symm_matrix)
  | averaged (meps : symm_matrix) (inv : Option symm_matrix)

/-- Interface path of `eff_chi1inv_matrix` for a non-grid interface
(meepgeom.cpp:1198-1213 and 1292-1299), reached once the front and
behind materials were found distinct after evaluation.  `center_eps` is
the tensor of the frontmost material resolved and evaluated at the
volume center (`get_material_pt(mat, v.center())`, the `noavg` target),
`front_eps`/`behind_eps` the two evaluated interface tensors,
`metal_front`/`metal_behind` the `is_metal` tests, `normal` the
`unit_vector3(normal_to_fixed_object(...))` result and `fill` the
`box_overlap_with_object` fraction, both delivered by libctl.  A zero
normal is the soft `goto noavg` fallback, not an abort. -/
def eff_chi1inv_nongrid (center_eps front_eps behind_eps : symm_matrix)
    (metal_front metal_behind : Bool) (normal : vector3) (fill : ℝ) : eff_outcome :=
  if metal_front || metal_behind then .noavg (material_epsmu center_eps)
  else if normal.x = 0 ∧ normal.y = 0 ∧ normal.z = 0 then .noavg (material_epsmu center_eps)
  else
    let m := kottke_meps front_eps behind_eps normal fill
    .averaged m (sym_matrix_invert m)

/-- Material-grid path of `eff_chi1inv_matrix` (meepgeom.cpp:1156-1199
with `material_type_equal(mat, mat_behind)`, plus the shared tail):
`uval` is `matgrid_val` at the pixel center plus `u_p`, `gradvec` the
`matgrid_grad` vector, `diam` the volume diameter.  The normal is the
normalized gradient, `d = (eta - uval) / |gradvec|`, `r = diam / 2`, and
`get_material_grid_fill` decides whether any averaging is needed.  When
it is not (and likewise on the metal `goto noavg` branch) the grid is
evaluated as a single material at the center value; otherwise the Kottke
step runs on the grid's current `medium` tensor `cur` (which
`material_epsmu` reads for both sides, the front and behind materials
being the same object). -/
def eff_chi1inv_matgrid (beta eta : ℝ) (e1 e2 : symm_matrix) (uval : ℝ) (gradvec : vector3)
    (dim : ndim) (diam : ℝ) (cur : symm_matrix) (metal : Bool) : eff_outcome :=
  let nabsinv := 1 / vabs gradvec
  let normal := vscale nabsinv gradvec
  let d := (eta - uval) * nabsinv
  let r := diam / 2
  let fr := get_material_grid_fill dim d r uval eta
  if fr.2 = false then .noavg (material_epsmu (eval_material_grid_eps beta eta e1 e2 uval))
  else if metal then .noavg (material_epsmu (eval_material_grid_eps beta eta e1 e2 uval))
  else
    let m := kottke_meps cur cur normal fr.1
    .averaged m (sym_matrix_invert m)

/-- Coordinate permutation applied by the fallback integrands in
cylindrical coordinates (meepgeom.cpp:1384-1388): swap `y` and `z`. -/
def cyl_map (cyl : Bool) (x : ℝ × ℝ × ℝ) : ℝ × ℝ × ℝ :=
  if cyl then (x.1, x.2.2, x.2.1) else x

/-- Jacobian weight of the fallback integrands: the radial coordinate in
cylindrical mode, `1` otherwise (`s` in meepgeom.cpp:1380-1388). -/
def cyl_weight (cyl : Bool) (x : ℝ × ℝ × ℝ) : ℝ :=
  if cyl then x.1 else 1

/-- Integrand of the trace integral (`eps_func`, meepgeom.cpp:1377-1393):
`epsAt` is the scalar `chi1p1` trace query at a point. -/
def eps_func (epsAt : ℝ × ℝ × ℝ → ℝ) (cyl : Bool) (x : ℝ × ℝ × ℝ) : ℝ :=
  epsAt (cyl_map cyl x) * cyl_weight cyl x

/-- Integrand of the reciprocal-trace integral (`inveps_func`,
meepgeom.cpp:1394-1410). -/
def inveps_func (epsAt : ℝ × ℝ × ℝ → ℝ) (cyl : Bool) (x : ℝ × ℝ × ℝ) : ℝ :=
  cyl_weight cyl x / epsAt (cyl_map cyl x)

/-- Weighted sum of an integrand over the evaluation points of a cubature
rule, the shallow embedding of libctl's `adaptive_integration`: each
element of `samples` is an evaluation point with its cubature weight. -/
def quad_integrate (f : ℝ × ℝ × ℝ → ℝ) (samples : List ((ℝ × ℝ × ℝ) × ℝ)) : ℝ :=
  samples.foldl (fun acc sw => acc + sw.2 * f sw.1) 0

/-- The `eps_ever_negative` flag (meepgeom.cpp:1302, 1391, 1518): set
exactly when some sample the integrands were evaluated at observed a
negative epsilon trace. -/
def eps_ever_negative (epsAt : ℝ × ℝ × ℝ → ℝ) (cyl : Bool)
    (samples : List ((ℝ × ℝ × ℝ) × ℝ)) : Bool :=
  samples.any fun sw => decide (epsAt (cyl_map cyl sw.1) < 0)

/-- Reconstruction of the anisotropic inverse-tensor row from the scalar
averages and the unit normal (meepgeom.cpp:1534-1542):
`row_i = n_rownum * n_i * (minveps - 1/meps)` with `1/meps` added to the
`rownum` entry. -/
def reconstruct_row (meps minveps : ℝ) (n : Fin 3 → ℝ) (rownum : Fin 3) : Fin 3 → ℝ :=
  fun i => n rownum * n i * (minveps - 1 / meps) + if i = rownum then 1 / meps else 0

/-- Scalar phase of the fallback quadrature averager for a non-grid
material (`fallback_chi1inv_row`, meepgeom.cpp:1490-1542): integrate the
trace and its reciprocal over the sample region, divide by the region
volume, and, when a negative epsilon was ever observed during
accumulation, discard both averages in favor of the single center-point
value and its reciprocal (`minveps = 1.0 / (meps = eps(v.center()))`)
before reconstructing the row along the unit normal `n`. -/
def fallback_chi1inv_row (epsAt : ℝ × ℝ × ℝ → ℝ) (cyl : Bool)
    (samples : List ((ℝ × ℝ × ℝ) × ℝ)) (vol : ℝ) (center : ℝ × ℝ × ℝ)
    (n : Fin 3 → ℝ) (rownum : Fin 3) : Fin 3 → ℝ :=
  let meps0 := quad_integrate (eps_func epsAt cyl) samples / vol
  let minveps0 := quad_integrate (inveps_func epsAt cyl) samples / vol
  let meps := if eps_ever_negative epsAt cyl samples then epsAt center else meps0
  let minveps := if eps_ever_negative epsAt cyl samples then 1 / epsAt center else minveps0
  reconstruct_row meps minveps n rownum

/-- View of a 3×3 entry function as a Mathlib matrix. -/
def mat3 (R : Fin 3 → Fin 3 → ℝ) : Matrix (Fin 3) (Fin 3) ℝ :=
  Matrix.of R

/-- View of a `symm_matrix` as a Mathlib matrix through its symmetric
entry function. -/
def symm_matrix.toMatrix (A : symm_matrix) : Matrix (Fin 3) (Fin 3) ℝ :=
  Matrix.of A.entry

/-- Pixel counts accumulated per fragment (`fragment_stats`,
meepgeom.cpp, size_t members printed by `print_stats`). -/
structure fragment_stats where
  num_anisotropic_eps_pixels : ℕ
  num_anisotropic_mu_pixels : ℕ
  num_nonlinear_pixels : ℕ
  num_susceptibility_pixels : ℕ
  num_nonzero_conductivity_pixels : ℕ
  num_1d_pml_pixels : ℕ
  num_2d_pml_pixels : ℕ
  num_3d_pml_pixels : ℕ
  num_dft_pixels : ℕ
  num_pixels_in_box : ℕ

/-- Linear cost model of a fragment (`fragment_stats::cost`,
meepgeom.cpp:2548-2554), coefficients verbatim. -/
def fragment_stats.cost (s : fragment_stats) : ℝ :=
  (s.num_anisotropic_eps_pixels : ℝ) * 1.15061674e-04 +
    (s.num_anisotropic_mu_pixels : ℝ) * 1.26843801e-04 +
    (s.num_nonlinear_pixels : ℝ) * 1.67029547e-04 +
    (s.num_susceptibility_pixels : ℝ) * 2.24790864e-04 +
    (s.num_nonzero_conductivity_pixels : ℝ) * 4.61260934e-05 +
    (s.num_dft_pixels : ℝ) * 1.47283950e-04 +
    (s.num_1d_pml_pixels : ℝ) * 9.92955372e-05 +
    (s.num_2d_pml_pixels : ℝ) * 1.36901107e-03 +
    (s.num_3d_pml_pixels : ℝ) * 6.63939607e-04 +
    (s.num_pixels_in_box : ℝ) * 3.46518274e-04

/-! Helper evaluation lemmas for vector and matrix literals. -/

theorem vec3_app_zero (a b c : ℝ) : ![a, b, c] 0 = a := rfl

theorem vec3_app_one (a b c : ℝ) : ![a, b, c] 1 = b := rfl

theorem vec3_app_two (a b c : ℝ) : ![a, b, c] 2 = c := rfl

/-- Matrix form of `sym_matrix_rotate`: the six-component result encodes
`transpose(R) * A * R`. -/
theorem toMatrix_sym_matrix_rotate (A : symm_matrix) (R : Fin 3 → Fin 3 → ℝ) :
    (sym_matrix_rotate A R).toMatrix = (mat3 R).transpose * A.toMatrix * mat3 R := by
  ext i j
  fin_cases i <;> fin_cases j <;>
    · simp [sym_matrix_rotate, symm_matrix.toMatrix, symm_matrix.entry, mat3,
        Matrix.mul_apply, Fin.sum_univ_three, Matrix.transpose_apply, Matrix.of_apply,
        vec3_app_zero, vec3_app_one, vec3_app_two, Matrix.vecHead, Matrix.vecTail]
      ring

/-- Rotating by `R` and then by its transpose is the identity once
`transpose(R) * R = 1`. -/
theorem rotate_roundtrip (A : symm_matrix) (R : Fin 3 → Fin 3 → ℝ)
    (h1 : (mat3 R).transpose * mat3 R = 1) :
    sym_matrix_rotate (sym_matrix_rotate A R) (transpose3 R) = A := by
  have h2 : mat3 R * (mat3 R).transpose = 1 := Matrix.mul_eq_one_comm.mp h1
  have htr : mat3 (transpose3 R) = (mat3 R).transpose := rfl
  have hm : (sym_matrix_rotate (sym_matrix_rotate A R) (transpose3 R)).toMatrix =
      A.toMatrix := by
    rw [toMatrix_sym_matrix_rotate, toMatrix_sym_matrix_rotate, htr,
      Matrix.transpose_transpose]
    calc mat3 R * ((mat3 R).transpose * A.toMatrix * mat3 R) * (mat3 R).transpose
        = mat3 R * (mat3 R).transpose * A.toMatrix * (mat3 R * (mat3 R).transpose) := by
          noncomm_ring
      _ = A.toMatrix := by rw [h2]; simp
  ext
  · exact congrFun (congrFun hm 0) 0
  · exact congrFun (congrFun hm 0) 1
  · exact congrFun (congrFun hm 0) 2
  · exact congrFun (congrFun hm 1) 1
  · exact congrFun (congrFun hm 1) 2
  · exact congrFun (congrFun hm 2) 2

set_option maxHeartbeats 1600000 in
/-- The rotation matrix built from a unit normal has orthonormal columns:
`transpose(R) * R = 1`. -/
theorem rot_orthonormal (n : vector3) (hn : n.x * n.x + n.y * n.y + n.z * n.z = 1) :
    (mat3 (rot_of_normal n)).transpose * mat3 (rot_of_normal n) = 1 := by
  by_cases hb : |n.x| > 1 / 100 ∨ |n.y| > 1 / 100
  · have hSpos : (0 : ℝ) < n.y * n.y + n.x * n.x := by
      rcases hb with hb | hb
      · have h2 := mul_self_lt_mul_self (by norm_num : (0 : ℝ) ≤ 1 / 100) hb
        rw [abs_mul_abs_self] at h2
        nlinarith [sq_nonneg n.y]
      · have h2 := mul_self_lt_mul_self (by norm_num : (0 : ℝ) ≤ 1 / 100) hb
        rw [abs_mul_abs_self] at h2
        nlinarith [sq_nonneg n.x]
    have hs := Real.mul_self_sqrt hSpos.le
    have hs0 : Real.sqrt (n.y * n.y + n.x * n.x) ≠ 0 :=
      ne_of_gt (Real.sqrt_pos.mpr hSpos)
    have hsq : Real.sqrt (n.y ^ 2 + n.x ^ 2) ^ 2 = n.y ^ 2 + n.x ^ 2 :=
      Real.sq_sqrt (by positivity)
    ext i j
    fin_cases i <;> fin_cases j <;>
      norm_num [mat3, rot_of_normal, if_pos hb, Matrix.transpose_apply, Matrix.of_apply,
        Matrix.mul_apply, Fin.sum_univ_three, Matrix.one_apply, vec3_app_zero, vec3_app_one,
        vec3_app_two, Matrix.vecHead, Matrix.vecTail, Fin.ext_iff]
    all_goals try linarith [hn]
    all_goals try field_simp [hs0]
    all_goals try ring
    all_goals linear_combination (n.y * n.y + n.x * n.x) * hn
  · have hble : |n.x| ≤ 1 / 100 ∧ |n.y| ≤ 1 / 100 := by
      push_neg at hb
      exact ⟨hb.1, hb.2⟩
    have hx2 : n.x * n.x ≤ 1 / 100 * (1 / 100) := by
      have := mul_self_le_mul_self (abs_nonneg n.x) hble.1
      rwa [abs_mul_abs_self] at this
    have hSpos : (0 : ℝ) < n.z * n.z + n.y * n.y := by nlinarith [sq_nonneg n.y]
    have hs := Real.mul_self_sqrt hSpos.le
    have hs0 : Real.sqrt (n.z * n.z + n.y * n.y) ≠ 0 :=
      ne_of_gt (Real.sqrt_pos.mpr hSpos)
    have hsq : Real.sqrt (n.z ^ 2 + n.y ^ 2) ^ 2 = n.z ^ 2 + n.y ^ 2 :=
      Real.sq_sqrt (by positivity)
    ext i j
    fin_cases i <;> fin_cases j <;>
      norm_num [mat3, rot_of_normal, if_neg hb, Matrix.transpose_apply, Matrix.of_apply,
        Matrix.mul_apply, Fin.sum_univ_three, Matrix.one_apply, vec3_app_zero, vec3_app_one,
        vec3_app_two, Matrix.vecHead, Matrix.vecTail, Fin.ext_iff]
    all_goals try linarith [hn]
    all_goals try field_simp [hs0]
    all_goals try ring
    all_goals linear_combination ((n.z ^ 2 + n.y ^ 2) ^ 4) * hsq + ((n.z ^ 2 + n.y ^ 2) ^ 4) * hn

/-- C3 (amended): for any unit interface normal, the Kottke mixing step
at fill fraction exactly 1 (resp. exactly 0) returns the unaveraged
tensor of the first (resp. second) material, provided that material's
rotated normal-normal component is nonzero (as holds for any
positive-definite physical tensor): the rotation into the normal frame,
the mixing, and the rotation back compose to the identity on that
tensor. -/
theorem C3_fill_extremes (eps1 eps2 : symm_matrix) (n : vector3)
    (hn : n.x * n.x + n.y * n.y + n.z * n.z = 1)
    (h1 : (sym_matrix_rotate eps1 (rot_of_normal n)).m00 ≠ 0)
    (h2 : (sym_matrix_rotate eps2 (rot_of_normal n)).m00 ≠ 0) :
    kottke_meps eps1 eps2 n 1 = eps1 ∧ kottke_meps eps1 eps2 n 0 = eps2 := by
  have horth := rot_orthonormal n hn
  constructor
  · have hround := rotate_roundtrip eps1 (rot_of_normal n) horth
    simp only [kottke_meps, kottke_avg]
    norm_num
    convert hround using 2
    ext <;> field_simp <;> ring
  · have hround := rotate_roundtrip eps2 (rot_of_normal n) horth
    simp only [kottke_meps, kottke_avg]
    norm_num
    convert hround using 2
    ext <;> field_simp <;> ring

set_option maxHeartbeats 1600000 in
/-- C3 counterexample: with a tensor that is singular along the normal
(`m00 = 0`, `m01 = 1`) the claim fails at fill fraction 1: the mixing
does not return the input tensor (its `m01` component comes back as 0,
the junk value the division-by-zero chain produces). -/
theorem C3_counterexample :
    kottke_meps ⟨0, 1, 0, 1, 0, 1⟩ (iso 1) ⟨1, 0, 0⟩ 1 ≠ ⟨0, 1, 0, 1, 0, 1⟩ := by
  intro h
  have h01 := congrArg symm_matrix.m01 h
  have hR : rot_of_normal ⟨1, 0, 0⟩ = ![![1, 0, 0], ![0, 0, -1], ![0, 1, 0]] := by
    funext i j
    fin_cases i <;> fin_cases j <;>
      norm_num [rot_of_normal, vec3_app_zero, vec3_app_one, vec3_app_two, Real.sqrt_one]
  norm_num [kottke_meps, kottke_avg, sym_matrix_rotate, symm_matrix.entry, transpose3, iso, hR,
    vec3_app_zero, vec3_app_one, vec3_app_two, Matrix.vecHead, Matrix.vecTail] at h01

/-- Witness for C3: the +x-axis unit normal with well-conditioned
isotropic tensors 2 and 3. -/
theorem C3_fill_extremes_witness :
    ((⟨1, 0, 0⟩ : vector3).x * (⟨1, 0, 0⟩ : vector3).x +
        (⟨1, 0, 0⟩ : vector3).y * (⟨1, 0, 0⟩ : vector3).y +
        (⟨1, 0, 0⟩ : vector3).z * (⟨1, 0, 0⟩ : vector3).z = 1) ∧
    (sym_matrix_rotate (iso 2) (rot_of_normal ⟨1, 0, 0⟩)).m00 ≠ 0 ∧
    (sym_matrix_rotate (iso 3) (rot_of_normal ⟨1, 0, 0⟩)).m00 ≠ 0 ∧
    (kottke_meps (iso 2) (iso 3) ⟨1, 0, 0⟩ 1 = iso 2 ∧
      kottke_meps (iso 2) (iso 3) ⟨1, 0, 0⟩ 0 = iso 3) := by
  have hR : rot_of_normal ⟨1, 0, 0⟩ = ![![1, 0, 0], ![0, 0, -1], ![0, 1, 0]] := by
    funext i j
    fin_cases i <;> fin_cases j <;>
      norm_num [rot_of_normal, vec3_app_zero, vec3_app_one, vec3_app_two, Real.sqrt_one]
  have hn : (⟨1, 0, 0⟩ : vector3).x * (⟨1, 0, 0⟩ : vector3).x +
      (⟨1, 0, 0⟩ : vector3).y * (⟨1, 0, 0⟩ : vector3).y +
      (⟨1, 0, 0⟩ : vector3).z * (⟨1, 0, 0⟩ : vector3).z = 1 := by norm_num
  have h1 : (sym_matrix_rotate (iso 2) (rot_of_normal ⟨1, 0, 0⟩)).m00 ≠ 0 := by
    norm_num [hR, sym_matrix_rotate, symm_matrix.entry, iso, vec3_app_zero, vec3_app_one,
      vec3_app_two, Matrix.vecHead, Matrix.vecTail]
  have h2 : (sym_matrix_rotate (iso 3) (rot_of_normal ⟨1, 0, 0⟩)).m00 ≠ 0 := by
    norm_num [hR, sym_matrix_rotate, symm_matrix.entry, iso, vec3_app_zero, vec3_app_one,
      vec3_app_two, Matrix.vecHead, Matrix.vecTail]
  exact ⟨hn, h1, h2, C3_fill_extremes (iso 2) (iso 3) ⟨1, 0, 0⟩ hn h1 h2⟩

/-- C2 counterexample: with `beta = 0` and `u = eta = 0.3` the projection
returns `u = 0.3`, not `0.5`, so the claim's second half is false at
`beta = 0`. -/
theorem C2_beta_zero_counterexample : tanh_projection 0.3 0 0.3 ≠ 0.5 := by
  have h : tanh_projection 0.3 0 0.3 = 0.3 := by simp [tanh_projection]
  rw [h]; norm_num

/-- C2 (amended): the threshold projection with `beta = 0` returns `u`
unchanged for every `u` and `eta`, and for every nonzero `beta` it
returns exactly `0.5` when `u = eta` (the removable singularity is
eliminated by the dedicated branch). -/
theorem C2_tanh_projection_identity_and_half :
    (∀ u eta : ℝ, tanh_projection u 0 eta = u) ∧
    (∀ beta eta : ℝ, beta ≠ 0 → tanh_projection eta beta eta = 0.5) := by
  constructor
  · intro u eta
    simp [tanh_projection]
  · intro beta eta hb
    simp [tanh_projection, hb]

/-- Witness for C2: concrete evaluations of both amended halves. -/
theorem C2_tanh_projection_identity_and_half_witness :
    tanh_projection 0.7 0 0.3 = 0.7 ∧ ((1 : ℝ) ≠ 0 ∧ tanh_projection 0.3 1 0.3 = 0.5) :=
  ⟨C2_tanh_projection_identity_and_half.1 0.7 0.3,
   by norm_num, C2_tanh_projection_identity_and_half.2 1 0.3 (by norm_num)⟩

/-- C4: density-grid aggregation: MEAN over two identical stacked grids
equals the value of either grid alone; MIN over interpolated values
`{0.2, 0.5, 0.8}` is `0.2`; PRODUCT over the same three values is
`0.08`. -/
theorem C4_matgrid_val_aggregation :
    (∀ u : ℝ, matgrid_val .U_MEAN [u, u] = matgrid_val .U_MEAN [u] ∧
      matgrid_val .U_MEAN [u] = u) ∧
    matgrid_val .U_MIN [0.2, 0.5, 0.8] = 0.2 ∧
    matgrid_val .U_PROD [0.2, 0.5, 0.8] = 0.08 := by
  refine ⟨fun u => ⟨?_, ?_⟩, ?_, ?_⟩
  · simp [matgrid_val, matgrid_fold]
  · simp [matgrid_val, matgrid_fold]
  · norm_num [matgrid_val, matgrid_fold, min_def]
  · norm_num [matgrid_val, matgrid_fold]

/-- C5: both gradient-path entry points reject the MIN and PRODUCT
aggregation policies with a fatal error: `matgrid_grad` up front, and
`material_grids_addgradient_point` whenever the tree search finds a
material-grid object at the point (in particular for any overlapping
stack). -/
theorem C5_gradient_min_prod_abort (kind : grid_kind)
    (h : kind = .U_MIN ∨ kind = .U_PROD) (gs : List vector3) (default_is_grid : Bool)
    (scalegrad : ℝ) (stack_count : ℕ) :
    (∃ e, matgrid_grad kind gs = .error e) ∧
    (∃ e, material_grids_addgradient_point kind true default_is_grid scalegrad stack_count =
      .error e) := by
  rcases h with h | h <;> subst h <;> exact ⟨⟨_, rfl⟩, ⟨_, rfl⟩⟩

/-- Witness for C5: the U_MIN policy aborts both entry points. -/
theorem C5_gradient_min_prod_abort_witness :
    (grid_kind.U_MIN = grid_kind.U_MIN ∨ grid_kind.U_MIN = grid_kind.U_PROD) ∧
    (∃ e, matgrid_grad .U_MIN [] = .error e) ∧
    (∃ e, material_grids_addgradient_point .U_MIN true false 0 2 = .error e) :=
  ⟨Or.inl rfl, C5_gradient_min_prod_abort .U_MIN (Or.inl rfl) [] false 0 2⟩

/-- C6: when the distance from the pixel center to the projection
threshold along the normal exceeds the sample radius,
`get_material_grid_fill` reports that no averaging is needed and
`eff_chi1inv_matrix` then evaluates the grid as a single material at the
center value (whose side of the threshold enters through the
projection); otherwise the flag is set and the fill is the closed-form
cap fraction, taken directly when the center value is at most `eta` and
complemented when it exceeds `eta`. -/
theorem C6_material_grid_fill (dim : ndim) (d r u eta : ℝ) (beta : ℝ)
    (e1 e2 cur : symm_matrix) (uval : ℝ) (gradvec : vector3) (diam : ℝ) (metal : Bool) :
    (|d| > |r| → (get_material_grid_fill dim d r u eta).2 = false) ∧
    (¬|d| > |r| →
      get_material_grid_fill dim d r u eta =
        (if u ≤ eta then matgrid_rel_fill dim d r else 1 - matgrid_rel_fill dim d r, true)) ∧
    ((get_material_grid_fill dim ((eta - uval) * (1 / vabs gradvec)) (diam / 2) uval eta).2 =
        false →
      eff_chi1inv_matgrid beta eta e1 e2 uval gradvec dim diam cur metal =
        .noavg (material_epsmu (eval_material_grid_eps beta eta e1 e2 uval))) := by
  refine ⟨fun h => ?_, fun h => ?_, fun h => ?_⟩
  · simp [get_material_grid_fill, h]
  · cases dim <;> simp [get_material_grid_fill, matgrid_rel_fill, h]
  · rw [one_div] at h
    simp [eff_chi1inv_matgrid, h]

/-- Witness for C6: concrete instances of all three parts (a far
interface in 1-D disables averaging and yields the center-evaluated
material; a near interface returns the cap fill with the flag set). -/
theorem C6_material_grid_fill_witness :
    ((|(2 : ℝ)| > |(1 : ℝ)|) ∧ (get_material_grid_fill .D1 2 1 0 0).2 = false) ∧
    ((¬|(0 : ℝ)| > |(1 : ℝ)|) ∧
      get_material_grid_fill .D1 0 1 0 1 =
        (if (0 : ℝ) ≤ 1 then matgrid_rel_fill .D1 0 1 else 1 - matgrid_rel_fill .D1 0 1, true)) ∧
    ((get_material_grid_fill .D1 ((5 - 0) * (1 / vabs ⟨1, 0, 0⟩)) (2 / 2) 0 5).2 = false ∧
      eff_chi1inv_matgrid 1 5 (iso 1) (iso 2) 0 ⟨1, 0, 0⟩ .D1 2 (iso 1) false =
        .noavg (material_epsmu (eval_material_grid_eps 1 5 (iso 1) (iso 2) 0))) := by
  have h1 : |(2 : ℝ)| > |(1 : ℝ)| := by norm_num
  have h2 : ¬|(0 : ℝ)| > |(1 : ℝ)| := by norm_num
  have h3 : (get_material_grid_fill .D1 ((5 - 0) * (1 / vabs ⟨1, 0, 0⟩)) (2 / 2) 0 5).2 =
      false := by
    norm_num [vabs, get_material_grid_fill, Real.sqrt_one]
  exact ⟨⟨h1, (C6_material_grid_fill .D1 2 1 0 0 1 (iso 1) (iso 2) (iso 1) 0 ⟨1, 0, 0⟩ 2
      false).1 h1⟩,
    ⟨h2, (C6_material_grid_fill .D1 0 1 0 1 1 (iso 1) (iso 2) (iso 1) 0 ⟨1, 0, 0⟩ 2
      false).2.1 h2⟩,
    h3, (C6_material_grid_fill .D1 0 1 0 5 1 (iso 1) (iso 2) (iso 1) 0 ⟨1, 0, 0⟩ 2
      false).2.2 h3⟩

/-- C7: when the surface-normal computation of a non-grid interface
returns the zero vector, `eff_chi1inv_matrix` does not abort but takes
the `goto noavg` branch, returning the unaveraged tensor of the
frontmost material evaluated at the volume center. -/
theorem C7_zero_normal_noavg (center_eps front_eps behind_eps : symm_matrix)
    (metal_front metal_behind : Bool) (normal : vector3) (fill : ℝ)
    (h : normal.x = 0 ∧ normal.y = 0 ∧ normal.z = 0) :
    eff_chi1inv_nongrid center_eps front_eps behind_eps metal_front metal_behind normal fill =
      .noavg (material_epsmu center_eps) := by
  rcases h with ⟨hx, hy, hz⟩
  cases metal_front <;> cases metal_behind <;> simp [eff_chi1inv_nongrid, hx, hy, hz]

/-- Witness for C7: a concrete zero-normal query returns the unaveraged
center material. -/
theorem C7_zero_normal_noavg_witness :
    ((vector3.mk 0 0 0).x = 0 ∧ (vector3.mk 0 0 0).y = 0 ∧ (vector3.mk 0 0 0).z = 0) ∧
    eff_chi1inv_nongrid (iso 2) (iso 3) (iso 4) false false ⟨0, 0, 0⟩ (1 / 2) =
      .noavg (material_epsmu (iso 2)) :=
  ⟨⟨rfl, rfl, rfl⟩,
   C7_zero_normal_noavg (iso 2) (iso 3) (iso 4) false false ⟨0, 0, 0⟩ (1 / 2) ⟨rfl, rfl, rfl⟩⟩

/-- C8: if a negative epsilon trace is ever observed by the fallback
integrands, the quadrature averages are discarded and the row is
reconstructed from the single center-point value and its reciprocal. -/
theorem C8_negative_eps_center_override (epsAt : ℝ × ℝ × ℝ → ℝ) (cyl : Bool)
    (samples : List ((ℝ × ℝ × ℝ) × ℝ)) (vol : ℝ) (center : ℝ × ℝ × ℝ)
    (n : Fin 3 → ℝ) (rownum : Fin 3)
    (h : eps_ever_negative epsAt cyl samples = true) :
    fallback_chi1inv_row epsAt cyl samples vol center n rownum =
      reconstruct_row (epsAt center) (1 / epsAt center) n rownum := by
  simp [fallback_chi1inv_row, h]

/-- Witness for C8: a constant gain medium (`eps = -1`) triggers the
center-point override. -/
theorem C8_negative_eps_center_override_witness :
    eps_ever_negative (fun _ => -1) false [((0, 0, 0), 1)] = true ∧
    fallback_chi1inv_row (fun _ => -1) false [((0, 0, 0), 1)] 1 (0, 0, 0) (fun _ => 1) 0 =
      reconstruct_row (-1) (1 / (-1)) (fun _ => 1) 0 := by
  have h : eps_ever_negative (fun _ => (-1 : ℝ)) false [((0, 0, 0), 1)] = true := by
    norm_num [eps_ever_negative, cyl_map]
  exact ⟨h, C8_negative_eps_center_override _ false _ 1 (0, 0, 0) _ 0 h⟩

/-- C9: the fragment cost is monotonically non-decreasing in each
individual pixel-category count, the others held fixed: adding `k`
pixels to any one category never decreases `cost`. -/
theorem C9_cost_monotone (s : fragment_stats) (k : ℕ) :
    s.cost ≤ fragment_stats.cost
      {s with num_anisotropic_eps_pixels := s.num_anisotropic_eps_pixels + k} ∧
    s.cost ≤ fragment_stats.cost
      {s with num_anisotropic_mu_pixels := s.num_anisotropic_mu_pixels + k} ∧
    s.cost ≤ fragment_stats.cost {s with num_nonlinear_pixels := s.num_nonlinear_pixels + k} ∧
    s.cost ≤ fragment_stats.cost
      {s with num_susceptibility_pixels := s.num_susceptibility_pixels + k} ∧
    s.cost ≤ fragment_stats.cost
      {s with num_nonzero_conductivity_pixels := s.num_nonzero_conductivity_pixels + k} ∧
    s.cost ≤ fragment_stats.cost {s with num_1d_pml_pixels := s.num_1d_pml_pixels + k} ∧
    s.cost ≤ fragment_stats.cost {s with num_2d_pml_pixels := s.num_2d_pml_pixels + k} ∧
    s.cost ≤ fragment_stats.cost {s with num_3d_pml_pixels := s.num_3d_pml_pixels + k} ∧
    s.cost ≤ fragment_stats.cost {s with num_dft_pixels := s.num_dft_pixels + k} ∧
    s.cost ≤ fragment_stats.cost {s with num_pixels_in_box := s.num_pixels_in_box + k} := by
  have hk : (0 : ℝ) ≤ (k : ℝ) := Nat.cast_nonneg k
  refine ⟨?_, ?_, ?_, ?_, ?_, ?_, ?_, ?_, ?_, ?_⟩ <;>
    · simp only [fragment_stats.cost]
      push_cast
      nlinarith [hk]

/-- C10: `sym_matrix_invert` signals the fatal singular-matrix error
exactly when some off-diagonal entry is nonzero and the determinant
vanishes; with all off-diagonals exactly zero it returns the elementwise
reciprocal of the diagonal with no singularity check (a zero diagonal
entry producing the `1 / 0` value rather than an abort). -/
theorem C10_sym_matrix_invert_branches (V : symm_matrix) :
    (sym_matrix_invert V = none ↔
      ¬(V.m01 = 0 ∧ V.m02 = 0 ∧ V.m12 = 0) ∧ sym_matrix_det V = 0) ∧
    ((V.m01 = 0 ∧ V.m02 = 0 ∧ V.m12 = 0) →
      sym_matrix_invert V = some ⟨1 / V.m00, 0, 0, 1 / V.m11, 0, 1 / V.m22⟩) := by
  unfold sym_matrix_invert
  split_ifs with h1 h2 <;> simp_all

/-- Witness for C10: a diagonal matrix with a zero diagonal entry is
returned elementwise-inverted, not aborted. -/
theorem C10_sym_matrix_invert_branches_witness :
    ((symm_matrix.mk 0 0 0 2 0 5).m01 = 0 ∧ (symm_matrix.mk 0 0 0 2 0 5).m02 = 0 ∧
      (symm_matrix.mk 0 0 0 2 0 5).m12 = 0) ∧
    sym_matrix_invert ⟨0, 0, 0, 2, 0, 5⟩ = some ⟨1 / 0, 0, 0, 1 / 2, 0, 1 / 5⟩ :=
  ⟨⟨rfl, rfl, rfl⟩, (C10_sym_matrix_invert_branches ⟨0, 0, 0, 2, 0, 5⟩).2 ⟨rfl, rfl, rfl⟩⟩

set_option maxHeartbeats 1600000 in
/-- Kottke mixing of two isotropic tensors across the axis normal
`⟨1, 0, 0⟩`, evaluated componentwise. -/
theorem kottke_meps_iso_xpos (e1v e2v f : ℝ) :
    kottke_meps (iso e1v) (iso e2v) ⟨1, 0, 0⟩ f =
      ⟨-1 / (f * (-1 / e1v) + (1 - f) * (-1 / e2v)), 0, 0,
       f * e1v + (1 - f) * e2v, 0, f * e1v + (1 - f) * e2v⟩ := by
  have hR : rot_of_normal ⟨1, 0, 0⟩ = ![![1, 0, 0], ![0, 0, -1], ![0, 1, 0]] := by
    funext i j
    fin_cases i <;> fin_cases j <;>
      norm_num [rot_of_normal, vec3_app_zero, vec3_app_one, vec3_app_two, Real.sqrt_one]
  ext <;>
    norm_num [kottke_meps, kottke_avg, sym_matrix_rotate, symm_matrix.entry, transpose3,
      iso, hR, vec3_app_zero, vec3_app_one, vec3_app_two, Matrix.vecHead, Matrix.vecTail]

set_option maxHeartbeats 1600000 in
/-- Kottke mixing of two isotropic tensors across the axis normal
`⟨-1, 0, 0⟩`, evaluated componentwise. -/
theorem kottke_meps_iso_xneg (e1v e2v f : ℝ) :
    kottke_meps (iso e1v) (iso e2v) ⟨-1, 0, 0⟩ f =
      ⟨-1 / (f * (-1 / e1v) + (1 - f) * (-1 / e2v)), 0, 0,
       f * e1v + (1 - f) * e2v, 0, f * e1v + (1 - f) * e2v⟩ := by
  have hR : rot_of_normal ⟨-1, 0, 0⟩ = ![![-1, 0, 0], ![0, 0, 1], ![0, 1, 0]] := by
    funext i j
    fin_cases i <;> fin_cases j <;>
      norm_num [rot_of_normal, vec3_app_zero, vec3_app_one, vec3_app_two, Real.sqrt_one]
  ext <;>
    norm_num [kottke_meps, kottke_avg, sym_matrix_rotate, symm_matrix.entry, transpose3,
      iso, hR, vec3_app_zero, vec3_app_one, vec3_app_two, Matrix.vecHead, Matrix.vecTail]

set_option maxHeartbeats 1600000 in
/-- Kottke mixing of two isotropic tensors across the axis normal
`⟨0, 1, 0⟩`, evaluated componentwise. -/
theorem kottke_meps_iso_ypos (e1v e2v f : ℝ) :
    kottke_meps (iso e1v) (iso e2v) ⟨0, 1, 0⟩ f =
      ⟨f * e1v + (1 - f) * e2v, 0, 0,
       -1 / (f * (-1 / e1v) + (1 - f) * (-1 / e2v)), 0, f * e1v + (1 - f) * e2v⟩ := by
  have hR : rot_of_normal ⟨0, 1, 0⟩ = ![![0, 0, 1], ![1, 0, 0], ![0, 1, 0]] := by
    funext i j
    fin_cases i <;> fin_cases j <;>
      norm_num [rot_of_normal, vec3_app_zero, vec3_app_one, vec3_app_two, Real.sqrt_one]
  ext <;>
    norm_num [kottke_meps, kottke_avg, sym_matrix_rotate, symm_matrix.entry, transpose3,
      iso, hR, vec3_app_zero, vec3_app_one, vec3_app_two, Matrix.vecHead, Matrix.vecTail]

set_option maxHeartbeats 1600000 in
/-- Kottke mixing of two isotropic tensors across the axis normal
`⟨0, -1, 0⟩`, evaluated componentwise. -/
theorem kottke_meps_iso_yneg (e1v e2v f : ℝ) :
    kottke_meps (iso e1v) (iso e2v) ⟨0, -1, 0⟩ f =
      ⟨f * e1v + (1 - f) * e2v, 0, 0,
       -1 / (f * (-1 / e1v) + (1 - f) * (-1 / e2v)), 0, f * e1v + (1 - f) * e2v⟩ := by
  have hR : rot_of_normal ⟨0, -1, 0⟩ = ![![0, 0, -1], ![-1, 0, 0], ![0, 1, 0]] := by
    funext i j
    fin_cases i <;> fin_cases j <;>
      norm_num [rot_of_normal, vec3_app_zero, vec3_app_one, vec3_app_two, Real.sqrt_one]
  ext <;>
    norm_num [kottke_meps, kottke_avg, sym_matrix_rotate, symm_matrix.entry, transpose3,
      iso, hR, vec3_app_zero, vec3_app_one, vec3_app_two, Matrix.vecHead, Matrix.vecTail]

set_option maxHeartbeats 1600000 in
/-- Kottke mixing of two isotropic tensors across the axis normal
`⟨0, 0, 1⟩`, evaluated componentwise. -/
theorem kottke_meps_iso_zpos (e1v e2v f : ℝ) :
    kottke_meps (iso e1v) (iso e2v) ⟨0, 0, 1⟩ f =
      ⟨f * e1v + (1 - f) * e2v, 0, 0,
       f * e1v + (1 - f) * e2v, 0, -1 / (f * (-1 / e1v) + (1 - f) * (-1 / e2v))⟩ := by
  have hR : rot_of_normal ⟨0, 0, 1⟩ = ![![0, -1, 0], ![0, 0, -1], ![1, 0, 0]] := by
    funext i j
    fin_cases i <;> fin_cases j <;>
      norm_num [rot_of_normal, vec3_app_zero, vec3_app_one, vec3_app_two, Real.sqrt_one]
  ext <;>
    norm_num [kottke_meps, kottke_avg, sym_matrix_rotate, symm_matrix.entry, transpose3,
      iso, hR, vec3_app_zero, vec3_app_one, vec3_app_two, Matrix.vecHead, Matrix.vecTail]

set_option maxHeartbeats 1600000 in
/-- Kottke mixing of two isotropic tensors across the axis normal
`⟨0, 0, -1⟩`, evaluated componentwise. -/
theorem kottke_meps_iso_zneg (e1v e2v f : ℝ) :
    kottke_meps (iso e1v) (iso e2v) ⟨0, 0, -1⟩ f =
      ⟨f * e1v + (1 - f) * e2v, 0, 0,
       f * e1v + (1 - f) * e2v, 0, -1 / (f * (-1 / e1v) + (1 - f) * (-1 / e2v))⟩ := by
  have hR : rot_of_normal ⟨0, 0, -1⟩ = ![![0, -1, 0], ![0, 0, 1], ![-1, 0, 0]] := by
    funext i j
    fin_cases i <;> fin_cases j <;>
      norm_num [rot_of_normal, vec3_app_zero, vec3_app_one, vec3_app_two, Real.sqrt_one]
  ext <;>
    norm_num [kottke_meps, kottke_avg, sym_matrix_rotate, symm_matrix.entry, transpose3,
      iso, hR, vec3_app_zero, vec3_app_one, vec3_app_two, Matrix.vecHead, Matrix.vecTail]

/-- C1: for two isotropic materials with scalar permittivities `e1v` and
`e2v` and a unit interface normal along a coordinate axis, the Kottke
mixing step of `eff_chi1inv_matrix` with fill fraction `f` produces a
tensor whose axis-normal diagonal component is
`-1 / (f * (-1/e1v) + (1-f) * (-1/e2v))`, whose two tangential diagonal
components are `f * e1v + (1-f) * e2v`, and whose off-diagonal entries
are all zero. -/
theorem C1_kottke_axis_interface (e1v e2v f : ℝ) (n : vector3) (k : Fin 3)
    (hn : (n = ⟨1, 0, 0⟩ ∧ k = 0) ∨ (n = ⟨-1, 0, 0⟩ ∧ k = 0) ∨
          (n = ⟨0, 1, 0⟩ ∧ k = 1) ∨ (n = ⟨0, -1, 0⟩ ∧ k = 1) ∨
          (n = ⟨0, 0, 1⟩ ∧ k = 2) ∨ (n = ⟨0, 0, -1⟩ ∧ k = 2)) :
    (kottke_meps (iso e1v) (iso e2v) n f).entry k k =
        -1 / (f * (-1 / e1v) + (1 - f) * (-1 / e2v)) ∧
    (∀ j : Fin 3, j ≠ k →
      (kottke_meps (iso e1v) (iso e2v) n f).entry j j = f * e1v + (1 - f) * e2v) ∧
    (kottke_meps (iso e1v) (iso e2v) n f).m01 = 0 ∧
    (kottke_meps (iso e1v) (iso e2v) n f).m02 = 0 ∧
    (kottke_meps (iso e1v) (iso e2v) n f).m12 = 0 := by
  rcases hn with ⟨rfl, rfl⟩ | ⟨rfl, rfl⟩ | ⟨rfl, rfl⟩ | ⟨rfl, rfl⟩ | ⟨rfl, rfl⟩ | ⟨rfl, rfl⟩
  · rw [kottke_meps_iso_xpos]
    refine ⟨?_, fun j hj => ?_, ?_, ?_, ?_⟩
    case refine_2 =>
      fin_cases j
      · simp at hj
      · norm_num [symm_matrix.entry, vec3_app_zero, vec3_app_one, vec3_app_two,
          Matrix.vecHead, Matrix.vecTail]
      · norm_num [symm_matrix.entry, vec3_app_zero, vec3_app_one, vec3_app_two,
          Matrix.vecHead, Matrix.vecTail]
    all_goals
      norm_num [symm_matrix.entry, vec3_app_zero, vec3_app_one, vec3_app_two,
        Matrix.vecHead, Matrix.vecTail]
  · rw [kottke_meps_iso_xneg]
    refine ⟨?_, fun j hj => ?_, ?_, ?_, ?_⟩
    case refine_2 =>
      fin_cases j
      · simp at hj
      · norm_num [symm_matrix.entry, vec3_app_zero, vec3_app_one, vec3_app_two,
          Matrix.vecHead, Matrix.vecTail]
      · norm_num [symm_matrix.entry, vec3_app_zero, vec3_app_one, vec3_app_two,
          Matrix.vecHead, Matrix.vecTail]
    all_goals
      norm_num [symm_matrix.entry, vec3_app_zero, vec3_app_one, vec3_app_two,
        Matrix.vecHead, Matrix.vecTail]
  · rw [kottke_meps_iso_ypos]
    refine ⟨?_, fun j hj => ?_, ?_, ?_, ?_⟩
    case refine_2 =>
      fin_cases j
      · norm_num [symm_matrix.entry, vec3_app_zero, vec3_app_one, vec3_app_two,
          Matrix.vecHead, Matrix.vecTail]
      · simp at hj
      · norm_num [symm_matrix.entry, vec3_app_zero, vec3_app_one, vec3_app_two,
          Matrix.vecHead, Matrix.vecTail]
    all_goals
      norm_num [symm_matrix.entry, vec3_app_zero, vec3_app_one, vec3_app_two,
        Matrix.vecHead, Matrix.vecTail]
  · rw [kottke_meps_iso_yneg]
    refine ⟨?_, fun j hj => ?_, ?_, ?_, ?_⟩
    case refine_2 =>
      fin_cases j
      · norm_num [symm_matrix.entry, vec3_app_zero, vec3_app_one, vec3_app_two,
          Matrix.vecHead, Matrix.vecTail]
      · simp at hj
      · norm_num [symm_matrix.entry, vec3_app_zero, vec3_app_one, vec3_app_two,
          Matrix.vecHead, Matrix.vecTail]
    all_goals
      norm_num [symm_matrix.entry, vec3_app_zero, vec3_app_one, vec3_app_two,
        Matrix.vecHead, Matrix.vecTail]
  · rw [kottke_meps_iso_zpos]
    refine ⟨?_, fun j hj => ?_, ?_, ?_, ?_⟩
    case refine_2 =>
      fin_cases j
      · norm_num [symm_matrix.entry, vec3_app_zero, vec3_app_one, vec3_app_two,
          Matrix.vecHead, Matrix.vecTail]
      · norm_num [symm_matrix.entry, vec3_app_zero, vec3_app_one, vec3_app_two,
          Matrix.vecHead, Matrix.vecTail]
      · simp at hj
    all_goals
      norm_num [symm_matrix.entry, vec3_app_zero, vec3_app_one, vec3_app_two,
        Matrix.vecHead, Matrix.vecTail]
  · rw [kottke_meps_iso_zneg]
    refine ⟨?_, fun j hj => ?_, ?_, ?_, ?_⟩
    case refine_2 =>
      fin_cases j
      · norm_num [symm_matrix.entry, vec3_app_zero, vec3_app_one, vec3_app_two,
          Matrix.vecHead, Matrix.vecTail]
      · norm_num [symm_matrix.entry, vec3_app_zero, vec3_app_one, vec3_app_two,
          Matrix.vecHead, Matrix.vecTail]
      · simp at hj
    all_goals
      norm_num [symm_matrix.entry, vec3_app_zero, vec3_app_one, vec3_app_two,
        Matrix.vecHead, Matrix.vecTail]

/-- Witness for C1: concrete +x-axis interface between permittivities 2
and 3 at fill fraction 1/2. -/
theorem C1_kottke_axis_interface_witness :
    ((vector3.mk 1 0 0 = ⟨1, 0, 0⟩ ∧ (0 : Fin 3) = 0) ∨
      (vector3.mk 1 0 0 = ⟨-1, 0, 0⟩ ∧ (0 : Fin 3) = 0) ∨
      (vector3.mk 1 0 0 = ⟨0, 1, 0⟩ ∧ (0 : Fin 3) = 1) ∨
      (vector3.mk 1 0 0 = ⟨0, -1, 0⟩ ∧ (0 : Fin 3) = 1) ∨
      (vector3.mk 1 0 0 = ⟨0, 0, 1⟩ ∧ (0 : Fin 3) = 2) ∨
      (vector3.mk 1 0 0 = ⟨0, 0, -1⟩ ∧ (0 : Fin 3) = 2)) ∧
    ((kottke_meps (iso 2) (iso 3) ⟨1, 0, 0⟩ (1 / 2)).entry 0 0 =
        -1 / (1 / 2 * (-1 / 2) + (1 - 1 / 2) * (-1 / 3)) ∧
      (∀ j : Fin 3, j ≠ 0 →
        (kottke_meps (iso 2) (iso 3) ⟨1, 0, 0⟩ (1 / 2)).entry j j =
          1 / 2 * 2 + (1 - 1 / 2) * 3) ∧
      (kottke_meps (iso 2) (iso 3) ⟨1, 0, 0⟩ (1 / 2)).m01 = 0 ∧
      (kottke_meps (iso 2) (iso 3) ⟨1, 0, 0⟩ (1 / 2)).m02 = 0 ∧
      (kottke_meps (iso 2) (iso 3) ⟨1, 0, 0⟩ (1 / 2)).m12 = 0) :=
  ⟨Or.inl ⟨rfl, rfl⟩,
   C1_kottke_axis_interface 2 3 (1 / 2) ⟨1, 0, 0⟩ 0 (Or.inl ⟨rfl, rfl⟩)⟩

end
